import Mathlib

/-!
Shallow embedding of the selection/clipboard command engine of
`src/commands/selection.rs`, together with the collaborator contracts it
relies on (buffer primitives, the interaction modes, the line-range
utility and the mode-switch commands), and proofs of the specification's
claims about it.

Buffer text is modelled as a `List Char`; a `Position` is a
(line, offset) pair, translated to a flat character index by summing the
lengths (plus one, for the terminating newline) of the preceding lines.
Buffer mutations additionally append to an event trace so that ordering
properties of multi-step commands can be stated.
-/

namespace Amp

/-- A (line, offset) location in a buffer, measured in characters. -/
structure Position where
  line : Nat
  offset : Nat
  deriving DecidableEq, Repr

/-- Lexicographic order on positions: by line, then by offset. -/
def Position.le (a b : Position) : Prop :=
  a.line < b.line ∨ (a.line = b.line ∧ a.offset ≤ b.offset)

instance (a b : Position) : Decidable (Position.le a b) :=
  inferInstanceAs (Decidable (a.line < b.line ∨ (a.line = b.line ∧ a.offset ≤ b.offset)))

/-- An ordered pair of positions, representing the half-open span
`[start, stop)` of buffer content (the source calls the second field
`end`, which is reserved in Lean). -/
structure Range where
  start : Position
  stop : Position
  deriving DecidableEq, Repr

/-- `Range::new` sorts its two arguments, so `start ≤ stop`
lexicographically. -/
def Range.new (a b : Position) : Range :=
  if Position.le a b then ⟨a, b⟩ else ⟨b, a⟩

/-- The lower of two positions under the lexicographic order. -/
def minPos (a b : Position) : Position :=
  if Position.le a b then a else b

/-- The higher of two positions under the lexicographic order. -/
def maxPos (a b : Position) : Position :=
  if Position.le a b then b else a

/-- Split a character list on newline characters; always returns at least
one (possibly empty) segment, mirroring how a text buffer's lines are
addressed: a trailing newline yields a final empty line. -/
def splitNl : List Char → List (List Char)
  | [] => [[]]
  | c :: cs =>
    if c = '\n' then [] :: splitNl cs
    else
      match splitNl cs with
      | [] => [[c]]
      | l :: ls => (c :: l) :: ls

/-- Join segments with single newline separators (inverse of `splitNl`). -/
def joinNl : List (List Char) → List Char
  | [] => []
  | [l] => l
  | l :: l' :: ls => l ++ '\n' :: joinNl (l' :: ls)

/-- Join segments, terminating every segment (the last included) with a
newline. -/
def joinNlT (ls : List (List Char)) : List Char :=
  ls.foldr (fun l acc => l ++ '\n' :: acc) []

/-- Rust's `str::split_terminator('\n')`: like splitting on newlines, but
a final empty segment produced by a trailing terminator is dropped. -/
def splitTerminator (t : List Char) : List (List Char) :=
  let parts := splitNl t
  if parts.getLast? = some [] then parts.dropLast else parts

/-- Rust's ordinal (byte-lexicographic) comparison of strings, which on
UTF-8 agrees with lexicographic comparison of Unicode code points. -/
def strLe : List Char → List Char → Bool
  | [], _ => true
  | _ :: _, [] => false
  | a :: as, b :: bs =>
    if a.toNat = b.toNat then strLe as bs else decide (a.toNat < b.toNat)

/-- Character index of the start of line `n` within the given split
lines: the total length of the preceding lines plus their newlines. -/
def lineOffset : List (List Char) → Nat → Nat
  | _, 0 => 0
  | [], _ + 1 => 0
  | l :: ls, n + 1 => l.length + 1 + lineOffset ls n

/-- Flat character index of a position within buffer data. -/
def posToIdx (data : List Char) (p : Position) : Nat :=
  lineOffset (splitNl data) p.line + p.offset

/-- The content of line `n` of the given buffer data. -/
def lineAt (data : List Char) (n : Nat) : List Char :=
  (splitNl data).getD n []

/-- A position is valid for buffer data when its line exists and its
offset does not exceed that line's length (a buffer-enforced invariant). -/
def Position.valid (p : Position) (data : List Char) : Prop :=
  p.line < (splitNl data).length ∧ p.offset ≤ (lineAt data p.line).length

instance (p : Position) (data : List Char) : Decidable (p.valid data) :=
  inferInstanceAs (Decidable (_ ∧ _))

/-- One observable buffer mutation, recorded in order of occurrence. -/
inductive BufferEvent where
  | startGroup
  | endGroup
  | deleteEvent (r : Range)
  | moveEvent (p : Position)
  | insertEvent (t : List Char)
  deriving DecidableEq, Repr

/-- The buffer collaborator: text data, a cursor, and the trace of
mutations performed on it. -/
structure Buffer where
  data : List Char
  cursor : Position
  events : List BufferEvent
  deriving Repr

/-- Number of lines of the buffer (a trailing newline opens a final
empty line; an empty buffer has one empty line). -/
def Buffer.lineCount (b : Buffer) : Nat :=
  (splitNl b.data).length

/-- Index of the buffer's last line. -/
def Buffer.lastLineIndex (b : Buffer) : Nat :=
  b.lineCount - 1

/-- `Buffer::delete_range`: remove the half-open character span between
the range's endpoints. -/
def Buffer.delete_range (b : Buffer) (r : Range) : Buffer :=
  { b with
    data := b.data.take (posToIdx b.data r.start) ++ b.data.drop (posToIdx b.data r.stop)
    events := b.events ++ [.deleteEvent r] }

/-- `Cursor::move_to`. -/
def Buffer.move_to (b : Buffer) (p : Position) : Buffer :=
  { b with cursor := p, events := b.events ++ [.moveEvent p] }

/-- `Cursor::move_to_first_line`. -/
def Buffer.move_to_first_line (b : Buffer) : Buffer :=
  b.move_to ⟨0, 0⟩

/-- `Cursor::move_to_last_line`. -/
def Buffer.move_to_last_line (b : Buffer) : Buffer :=
  b.move_to ⟨b.lastLineIndex, 0⟩

/-- `Buffer::read`: the text of a range, or `none` when an endpoint is
out of bounds. -/
def Buffer.read (b : Buffer) (r : Range) : Option (List Char) :=
  if r.start.valid b.data ∧ r.stop.valid b.data then
    some ((b.data.take (posToIdx b.data r.stop)).drop (posToIdx b.data r.start))
  else none

/-- `Buffer::insert`: splice text in at the cursor's position. -/
def Buffer.insert (b : Buffer) (t : List Char) : Buffer :=
  { b with
    data :=
      b.data.take (posToIdx b.data b.cursor) ++ t ++ b.data.drop (posToIdx b.data b.cursor)
    events := b.events ++ [.insertEvent t] }

/-- `Buffer::start_operation_group`: opens an atomic undo unit. -/
def Buffer.start_operation_group (b : Buffer) : Buffer :=
  { b with events := b.events ++ [.startGroup] }

/-- `Buffer::end_operation_group`: closes an atomic undo unit. -/
def Buffer.end_operation_group (b : Buffer) : Buffer :=
  { b with events := b.events ++ [.endGroup] }

/-- What was last copied: a character-range payload or a whole-lines
payload (which determines the paste strategy), or nothing yet. -/
inductive ClipboardContent where
  | none
  | inline (data : List Char)
  | block (data : List Char)
  deriving DecidableEq, Repr

/-- The clipboard collaborator; `systemSyncFails` models whether the
surrounding system-clipboard integration fails on write. -/
structure Clipboard where
  content : ClipboardContent
  systemSyncFails : Bool
  deriving DecidableEq, Repr

/-- Modelled from the spec: `Clipboard::set_content` "replaces stored
content unconditionally; the operation can fail only if the surrounding
clipboard integration (system clipboard sync) fails — modeled as a
propagated error, not swallowed". -/
def Clipboard.set_content (c : Clipboard) (content : ClipboardContent) :
    Except String Clipboard :=
  if c.systemSyncFails then .error "Couldn't sync with system clipboard"
  else .ok { c with content := content }

/-- Modelled from the spec: the search mode's result set "exposes
'current selected match' as an optional Range; absent if no query has
been accepted or no match exists". -/
structure SearchResults where
  selection : Option Range
  deriving DecidableEq, Repr

/-- The interaction modes relevant to the selection engine; `normal` and
`insert` stand for the selection-incapable modes. -/
inductive Mode where
  | normal
  | insert
  | select (anchor : Position)
  | selectLine (anchor : Nat)
  | search (results : Option SearchResults)
  deriving Repr

/-- The application state visible to the selection commands: the current
buffer (if any), the interaction mode, and the clipboard. -/
structure Application where
  buffer : Option Buffer
  mode : Mode
  clipboard : Clipboard

/-- The error used when no buffer is active. -/
def BUFFER_MISSING : String := "No buffer available"

/-- Modelled from the spec: `util::inclusive_range` — "Orders the two
line indices ascending. The start Position is (min_line, 0). The end
Position is the start of the line after max_line if max_line is not the
buffer's last line (so the range includes max_line's trailing newline);
otherwise it is (max_line, length of max_line)". -/
def inclusive_range (anchorLine cursorLine : Nat) (buffer : Buffer) : Range :=
  let lo := min anchorLine cursorLine
  let hi := max anchorLine cursorLine
  if hi + 1 < buffer.lineCount then
    { start := ⟨lo, 0⟩, stop := ⟨hi + 1, 0⟩ }
  else
    { start := ⟨lo, 0⟩, stop := ⟨hi, (lineAt buffer.data hi).length⟩ }

/-- Modelled from the spec: `SelectLineMode::to_range` — the resolver for
SelectLine mode is "inclusive_range(LineRange(anchor, cursor.line),
buffer)". -/
def selectLineToRange (anchor : Nat) (cursor : Position) (buffer : Buffer) : Range :=
  inclusive_range anchor cursor.line buffer

/-- Modelled from the spec: the application's switch to normal mode; a
mode switch "may itself fail (e.g., no buffer) and such failure
propagates". -/
def switch_to_normal_mode (app : Application) : Except String Application :=
  match app.buffer with
  | .none => .error BUFFER_MISSING
  | .some _ => .ok { app with mode := .normal }

/-- Modelled from the spec: the application's switch to insert mode. -/
def switch_to_insert_mode (app : Application) : Except String Application :=
  match app.buffer with
  | .none => .error BUFFER_MISSING
  | .some _ => .ok { app with mode := .insert }

/-- Modelled from the spec: the switch to select-line mode establishes
"the anchor … as a side effect of the mode switch" at the buffer
cursor's current line. -/
def switch_to_select_line_mode (app : Application) : Except String Application :=
  match app.buffer with
  | .none => .error BUFFER_MISSING
  | .some b => .ok { app with mode := .selectLine b.cursor.line }

/-- Modelled from the spec: the view collaborator's `scroll_to_cursor`
only adjusts the viewport; it changes none of the state modelled here. -/
def scroll_to_cursor (app : Application) : Except String Application :=
  .ok app

/-- `selection::delete`. -/
def delete (app : Application) : Except String Application :=
  match app.buffer with
  | .some buffer =>
    match app.mode with
    | .select anchor =>
      let delete_range := Range.new buffer.cursor anchor
      let buffer := (buffer.delete_range delete_range).move_to delete_range.start
      .ok { app with buffer := some buffer }
    | .selectLine anchor =>
      let delete_range := selectLineToRange anchor buffer.cursor buffer
      let buffer := (buffer.delete_range delete_range).move_to delete_range.start
      .ok { app with buffer := some buffer }
    | .search results =>
      match results.bind (fun r => r.selection) with
      | .none => .error "Can't delete in search mode without a selected result"
      | .some selection =>
        .ok { app with buffer := some (buffer.delete_range selection) }
    | _ => .error "Can't delete selections outside of select mode"
  | .none => .error BUFFER_MISSING

/-- `selection::copy_to_clipboard`. -/
def copy_to_clipboard (app : Application) : Except String Application :=
  match app.buffer with
  | .none => .error BUFFER_MISSING
  | .some buffer =>
    match app.mode with
    | .select anchor =>
      let selected_range := Range.new buffer.cursor anchor
      match buffer.read selected_range with
      | .none => .error "Couldn't read selected data from buffer"
      | .some data =>
        match app.clipboard.set_content (.inline data) with
        | .error e => .error e
        | .ok cb => .ok { app with clipboard := cb }
    | .selectLine anchor =>
      let selected_range := inclusive_range anchor buffer.cursor.line buffer
      match buffer.read selected_range with
      | .none => .error "Couldn't read selected data from buffer"
      | .some data =>
        match app.clipboard.set_content (.block data) with
        | .error e => .error e
        | .ok cb => .ok { app with clipboard := cb }
    | _ => .error "Can't copy data to clipboard outside of select modes"

/-- `selection::copy_and_delete`: the copy step's result is discarded
(best effort), then delete runs on the resulting state. -/
def copy_and_delete (app : Application) : Except String Application :=
  let app :=
    match copy_to_clipboard app with
    | .ok a => a
    | .error _ => app
  delete app

/-- `selection::change`: best-effort copy, delete, switch to insert
mode, scroll. -/
def change (app : Application) : Except String Application := do
  let app :=
    match copy_to_clipboard app with
    | .ok a => a
    | .error _ => app
  let app ← delete app
  let app ← switch_to_insert_mode app
  scroll_to_cursor app

/-- `selection::copy`: copy to clipboard (failure propagates), then
switch to normal mode. -/
def copy (app : Application) : Except String Application := do
  let app ← copy_to_clipboard app
  switch_to_normal_mode app

/-- `selection::select_all`: cursor to first line, switch to select-line
mode, cursor to last line. -/
def select_all (app : Application) : Except String Application := do
  let app ←
    match app.buffer with
    | .none => Except.error BUFFER_MISSING
    | .some b => Except.ok { app with buffer := some b.move_to_first_line }
  let app ← switch_to_select_line_mode app
  match app.buffer with
  | .none => Except.error BUFFER_MISSING
  | .some b => Except.ok { app with buffer := some b.move_to_last_line }

/-- The line-rebuilding step of `selection::sort_lines`: split on
newline terminators, sort (stably, ordinally, ascending), rejoin with
newlines, and append one final newline. -/
def sortText (t : List Char) : List Char :=
  joinNl ((splitTerminator t).mergeSort strLe) ++ ['\n']

/-- `selection::sort_lines`. -/
def sort_lines (app : Application) : Except String Application :=
  match app.buffer with
  | .none => .error BUFFER_MISSING
  | .some buffer =>
    match app.mode with
    | .selectLine anchor =>
      let line_range := inclusive_range anchor buffer.cursor.line buffer
      match buffer.read line_range with
      | .none => .error "Couldn't read lines to sort from buffer"
      | .some lines =>
        let sorted := sortText lines
        let buffer := buffer.start_operation_group
        let buffer := buffer.delete_range line_range
        let buffer := buffer.move_to line_range.start
        let buffer := buffer.insert sorted
        let buffer := buffer.end_operation_group
        switch_to_normal_mode { app with buffer := some buffer }
    | _ => .error "Can't sort lines outside of select line mode"

/-! ### Lemmas about splitting and joining lines -/

theorem splitNl_ne_nil (s : List Char) : splitNl s ≠ [] := by
  cases s with
  | nil => simp [splitNl]
  | cons c cs =>
    simp only [splitNl]
    split
    · simp
    · split <;> simp

theorem splitNl_cons_newline (s : List Char) : splitNl ('\n' :: s) = [] :: splitNl s := by
  simp [splitNl]

theorem splitNl_cons_ne {c : Char} {s : List Char} {m : List Char} {ms : List (List Char)}
    (hc : c ≠ '\n') (h : splitNl s = m :: ms) :
    splitNl (c :: s) = (c :: m) :: ms := by
  simp [splitNl, hc, h]

theorem splitNl_append {l s : List Char} {m : List Char} {ms : List (List Char)}
    (hl : '\n' ∉ l) (h : splitNl s = m :: ms) :
    splitNl (l ++ s) = (l ++ m) :: ms := by
  induction l with
  | nil => simpa using h
  | cons c l ih =>
    have hc : c ≠ '\n' := by intro e; exact hl (by simp [e])
    have hl' : '\n' ∉ l := by intro e; exact hl (by simp [e])
    simpa using splitNl_cons_ne hc (ih hl')

theorem splitNl_no_newline (s : List Char) : ∀ l ∈ splitNl s, '\n' ∉ l := by
  induction s with
  | nil =>
    intro l hl
    simp [splitNl] at hl
    subst hl; simp
  | cons c cs ih =>
    by_cases hc : c = '\n'
    · subst hc
      rw [splitNl_cons_newline]
      intro l hl
      rcases List.mem_cons.mp hl with h | h
      · subst h; simp
      · exact ih l h
    · obtain ⟨m, ms, hms⟩ := List.exists_cons_of_ne_nil (splitNl_ne_nil cs)
      rw [splitNl_cons_ne hc hms]
      intro l hl
      rcases List.mem_cons.mp hl with h | h
      · subst h
        intro hmem
        rcases List.mem_cons.mp hmem with h' | h'
        · exact hc h'.symm
        · exact ih m (by rw [hms]; exact List.mem_cons_self _ _) h'
      · exact ih l (by rw [hms]; exact List.mem_cons_of_mem _ h)

theorem joinNl_cons_cons (c : Char) (m : List Char) (ms : List (List Char)) :
    joinNl ((c :: m) :: ms) = c :: joinNl (m :: ms) := by
  cases ms <;> simp [joinNl]

theorem joinNl_splitNl (s : List Char) : joinNl (splitNl s) = s := by
  induction s with
  | nil => simp [splitNl, joinNl]
  | cons c cs ih =>
    by_cases hc : c = '\n'
    · subst hc
      rw [splitNl_cons_newline]
      obtain ⟨m, ms, hms⟩ := List.exists_cons_of_ne_nil (splitNl_ne_nil cs)
      rw [hms]
      rw [hms] at ih
      simpa [joinNl] using ih
    · obtain ⟨m, ms, hms⟩ := List.exists_cons_of_ne_nil (splitNl_ne_nil cs)
      rw [splitNl_cons_ne hc hms, joinNl_cons_cons]
      rw [hms] at ih
      rw [ih]

theorem joinNlT_nil : joinNlT [] = [] := rfl

theorem joinNlT_cons (l : List Char) (ls : List (List Char)) :
    joinNlT (l :: ls) = l ++ '\n' :: joinNlT ls := rfl

theorem splitNl_joinNlT_append {ls : List (List Char)} (h : ∀ l ∈ ls, '\n' ∉ l)
    (s : List Char) :
    splitNl (joinNlT ls ++ s) = ls ++ splitNl s := by
  induction ls with
  | nil => simp [joinNlT]
  | cons m ms ih =>
    have hm : '\n' ∉ m := h m (List.mem_cons_self _ _)
    have h' : ∀ l ∈ ms, '\n' ∉ l := fun l hl => h l (List.mem_cons_of_mem _ hl)
    have harr : joinNlT (m :: ms) ++ s = m ++ ('\n' :: (joinNlT ms ++ s)) := by
      rw [joinNlT_cons]; simp
    rw [harr, splitNl_append hm (splitNl_cons_newline _), ih h']
    simp

theorem splitNl_joinNl {ls : List (List Char)} (hne : ls ≠ [])
    (h : ∀ l ∈ ls, '\n' ∉ l) :
    splitNl (joinNl ls) = ls := by
  induction ls with
  | nil => cases hne rfl
  | cons m ms ih =>
    cases ms with
    | nil =>
      have := splitNl_append (h m (List.mem_cons_self _ _))
        (show splitNl ([] : List Char) = [] :: [] by simp [splitNl])
      simpa [joinNl] using this
    | cons m' rest =>
      have hjoin : joinNl (m :: m' :: rest) = m ++ '\n' :: joinNl (m' :: rest) := rfl
      rw [hjoin, splitNl_append (h m (List.mem_cons_self _ _)) (splitNl_cons_newline _),
        ih (by simp) (fun l hl => h l (List.mem_cons_of_mem _ hl))]
      simp

theorem joinNlT_eq_joinNl {ls : List (List Char)} (hne : ls ≠ []) :
    joinNlT ls = joinNl ls ++ ['\n'] := by
  induction ls with
  | nil => cases hne rfl
  | cons m ms ih =>
    cases ms with
    | nil => simp [joinNlT, joinNl]
    | cons m' rest =>
      rw [joinNlT_cons, ih (by simp)]
      simp [joinNl]

/-! ### Lemmas about line offsets -/

theorem lineOffset_nil (n : Nat) : lineOffset [] n = 0 := by
  cases n <;> rfl

theorem lineOffset_zero (ls : List (List Char)) : lineOffset ls 0 = 0 := by
  cases ls <;> rfl

theorem lineOffset_cons_succ (l : List Char) (ls : List (List Char)) (n : Nat) :
    lineOffset (l :: ls) (n + 1) = l.length + 1 + lineOffset ls n := rfl

theorem lineOffset_eq_take_length (ls : List (List Char)) (n : Nat) :
    lineOffset ls n = (joinNlT (ls.take n)).length := by
  induction ls generalizing n with
  | nil => cases n <;> simp [lineOffset, joinNlT]
  | cons l ls ih =>
    cases n with
    | zero => simp [lineOffset_zero, joinNlT]
    | succ n =>
      rw [lineOffset_cons_succ, List.take_succ_cons, joinNlT_cons, ih]
      simp
      try omega

theorem lineOffset_succ (ls : List (List Char)) (n : Nat) (h : n < ls.length) :
    lineOffset ls (n + 1) = lineOffset ls n + (ls.getD n []).length + 1 := by
  induction ls generalizing n with
  | nil => simp at h
  | cons l ls ih =>
    cases n with
    | zero => simp [lineOffset_cons_succ, lineOffset_zero]; try omega
    | succ n =>
      rw [lineOffset_cons_succ, lineOffset_cons_succ, ih n (by simpa using h)]
      simp
      try omega

theorem lineOffset_mono (ls : List (List Char)) {n m : Nat} (h : n ≤ m) :
    lineOffset ls n ≤ lineOffset ls m := by
  induction ls generalizing n m with
  | nil => rw [lineOffset_nil, lineOffset_nil]
  | cons l ls ih =>
    cases n with
    | zero => rw [lineOffset_zero]; exact Nat.zero_le _
    | succ n =>
      cases m with
      | zero => omega
      | succ m =>
        rw [lineOffset_cons_succ, lineOffset_cons_succ]
        have := ih (Nat.le_of_succ_le_succ h)
        omega

theorem lineOffset_append (A B : List (List Char)) {n : Nat} (h : n ≤ A.length) :
    lineOffset (A ++ B) n = lineOffset A n := by
  induction A generalizing n with
  | nil =>
    have hn : n = 0 := by simpa using h
    subst hn
    rw [lineOffset_zero, lineOffset_nil]
  | cons l ls ih =>
    cases n with
    | zero => rw [lineOffset_zero, lineOffset_zero]
    | succ n =>
      rw [List.cons_append, lineOffset_cons_succ, lineOffset_cons_succ,
        ih (by simpa using h)]

theorem lineOffset_take (ls : List (List Char)) {n : Nat} (h : n ≤ ls.length) :
    lineOffset (ls.take n) n = lineOffset ls n := by
  conv_rhs => rw [← List.take_append_drop n ls]
  rw [lineOffset_append _ _ (by simp [Nat.min_le_left]; omega)]

theorem joinNl_cons_of_ne_nil (l : List Char) {ls : List (List Char)} (h : ls ≠ []) :
    joinNl (l :: ls) = l ++ '\n' :: joinNl ls := by
  cases ls with
  | nil => cases h rfl
  | cons m ms => rfl

theorem joinNl_decomp (ls : List (List Char)) {n : Nat} (h : n < ls.length) :
    joinNl ls = joinNlT (ls.take n) ++ joinNl (ls.drop n) := by
  induction n generalizing ls with
  | zero => simp [joinNlT]
  | succ n ih =>
    cases ls with
    | nil => simp at h
    | cons l ls =>
      have hlen : n < ls.length := by simpa using h
      have hne : ls ≠ [] := by
        intro e
        rw [e] at hlen
        simp at hlen
      rw [joinNl_cons_of_ne_nil l hne, List.take_succ_cons, List.drop_succ_cons,
        joinNlT_cons, ih ls hlen]
      simp

theorem joinNl_take_lineOffset (ls : List (List Char)) {n : Nat} (h : n < ls.length) :
    (joinNl ls).take (lineOffset ls n) = joinNlT (ls.take n) := by
  rw [joinNl_decomp ls h]
  exact List.take_left' (lineOffset_eq_take_length ls n).symm

theorem joinNl_drop_lineOffset (ls : List (List Char)) {n : Nat} (h : n < ls.length) :
    (joinNl ls).drop (lineOffset ls n) = joinNl (ls.drop n) := by
  rw [joinNl_decomp ls h]
  exact List.drop_left' (lineOffset_eq_take_length ls n).symm

theorem lineOffset_le_length (ls : List (List Char)) {n : Nat} (h : n < ls.length) :
    lineOffset ls n ≤ (joinNl ls).length := by
  rw [joinNl_decomp ls h]
  rw [lineOffset_eq_take_length]
  simp

theorem joinNl_cons_length_le (l : List Char) (ls : List (List Char)) :
    l.length ≤ (joinNl (l :: ls)).length := by
  cases ls with
  | nil => simp [joinNl]
  | cons m ms =>
    rw [joinNl_cons_of_ne_nil l (by simp)]
    simp

theorem lineOffset_add_line_le (ls : List (List Char)) {n : Nat} (h : n < ls.length) :
    lineOffset ls n + (ls.getD n []).length ≤ (joinNl ls).length := by
  rw [joinNl_decomp ls h, List.length_append, ← lineOffset_eq_take_length]
  have hdrop : ls.drop n = ls[n] :: ls.drop (n + 1) := List.drop_eq_getElem_cons h
  have hgetD : ls.getD n [] = ls[n] := List.getD_eq_getElem ls [] h
  rw [hdrop, hgetD]
  have := joinNl_cons_length_le (ls[n]) (ls.drop (n + 1))
  omega

/-! ### Lemmas about position indices and the lexicographic order -/

theorem posToIdx_le_length {p : Position} {data : List Char} (h : p.valid data) :
    posToIdx data p ≤ data.length := by
  obtain ⟨h1, h2⟩ := h
  have hlen := lineOffset_add_line_le (splitNl data) h1
  rw [joinNl_splitNl] at hlen
  unfold posToIdx
  unfold lineAt at h2
  omega

theorem posToIdx_mono {p q : Position} {data : List Char}
    (hp : p.valid data) (hq : q.valid data) (hle : p.le q) :
    posToIdx data p ≤ posToIdx data q := by
  rcases hle with h | ⟨h1, h2⟩
  · have e2 := lineOffset_succ (splitNl data) p.line hp.1
    have e3 : lineOffset (splitNl data) (p.line + 1) ≤ lineOffset (splitNl data) q.line :=
      lineOffset_mono _ h
    have h2 := hp.2
    unfold lineAt at h2
    unfold posToIdx
    omega
  · unfold posToIdx
    rw [h1]
    omega

theorem Position.le_refl (a : Position) : a.le a := by
  unfold Position.le
  omega

theorem Position.le_of_not_le {a b : Position} (h : ¬ a.le b) : b.le a := by
  unfold Position.le at *
  omega

theorem Range.new_eq (a b : Position) : Range.new a b = ⟨minPos a b, maxPos a b⟩ := by
  by_cases h : Position.le a b <;> simp [Range.new, minPos, maxPos, h]

theorem minPos_le_maxPos (a b : Position) : (minPos a b).le (maxPos a b) := by
  by_cases h : Position.le a b
  · simpa [minPos, maxPos, h] using h
  · simp only [minPos, maxPos, if_neg h]
    exact Position.le_of_not_le h

theorem minPos_valid {a b : Position} {data : List Char}
    (ha : a.valid data) (hb : b.valid data) : (minPos a b).valid data := by
  unfold minPos
  split <;> assumption

theorem maxPos_valid {a b : Position} {data : List Char}
    (ha : a.valid data) (hb : b.valid data) : (maxPos a b).valid data := by
  unfold maxPos
  split <;> assumption

/-! ### Lemmas about the ordinal comparison -/

theorem strLe_refl (a : List Char) : strLe a a = true := by
  induction a with
  | nil => rfl
  | cons c cs ih => simp [strLe, ih]

theorem strLe_total (a b : List Char) : (strLe a b || strLe b a) = true := by
  induction a generalizing b with
  | nil => simp [strLe]
  | cons c cs ih =>
    cases b with
    | nil => simp [strLe]
    | cons d ds =>
      simp only [strLe]
      by_cases h : c.toNat = d.toNat
      · have h' : d.toNat = c.toNat := h.symm
        rw [if_pos h, if_pos h']
        exact ih ds
      · have h' : ¬ d.toNat = c.toNat := fun e => h e.symm
        rw [if_neg h, if_neg h']
        simp only [Bool.or_eq_true, decide_eq_true_eq]
        omega

theorem strLe_trans {a b c : List Char} (h1 : strLe a b = true) (h2 : strLe b c = true) :
    strLe a c = true := by
  induction a generalizing b c with
  | nil => simp [strLe]
  | cons x xs ih =>
    cases b with
    | nil => simp [strLe] at h1
    | cons y ys =>
      cases c with
      | nil => simp [strLe] at h2
      | cons z zs =>
        simp only [strLe] at h1 h2 ⊢
        by_cases e1 : x.toNat = y.toNat
        · rw [if_pos e1] at h1
          by_cases e2 : y.toNat = z.toNat
          · rw [if_pos e2] at h2
            rw [if_pos (e1.trans e2)]
            exact ih h1 h2
          · rw [if_neg e2, decide_eq_true_eq] at h2
            rw [if_neg (by omega), decide_eq_true_eq]
            omega
        · rw [if_neg e1, decide_eq_true_eq] at h1
          by_cases e2 : y.toNat = z.toNat
          · rw [if_neg (by omega), decide_eq_true_eq]
            omega
          · rw [if_neg e2, decide_eq_true_eq] at h2
            rw [if_neg (by omega), decide_eq_true_eq]
            omega

/-! ### Lemmas about the sort-lines text transformation -/

theorem splitTerminator_no_newline (t : List Char) :
    ∀ l ∈ splitTerminator t, '\n' ∉ l := by
  intro l hl
  unfold splitTerminator at hl
  by_cases h : (splitNl t).getLast? = some []
  · simp only [h, if_pos] at hl
    exact splitNl_no_newline t l (List.dropLast_subset _ hl)
  · simp only [h, if_neg, if_false] at hl
    exact splitNl_no_newline t l hl

theorem splitTerminator_joinNl {ls : List (List Char)} (hne : ls ≠ [])
    (h : ∀ l ∈ ls, '\n' ∉ l) :
    splitTerminator (joinNl ls ++ ['\n']) = ls := by
  have h1 : joinNl ls ++ ['\n'] = joinNlT ls := (joinNlT_eq_joinNl hne).symm
  have h2 : splitNl (joinNlT ls) = ls ++ [[]] := by
    have := splitNl_joinNlT_append h []
    simpa [splitNl] using this
  rw [h1]
  unfold splitTerminator
  rw [h2]
  simp [List.getLast?_concat, List.dropLast_concat]

theorem sortText_idem (t : List Char) : sortText (sortText t) = sortText t := by
  cases hcase : (splitTerminator t).mergeSort strLe with
  | nil =>
    have h1 : sortText t = ['\n'] := by
      unfold sortText
      rw [hcase]
      rfl
    have h2 : splitTerminator ['\n'] = [[]] := by decide
    rw [h1]
    unfold sortText
    rw [h2, List.mergeSort_singleton]
    rfl
  | cons m ms =>
    have hnl : ∀ l ∈ (m :: ms), '\n' ∉ l := by
      rw [← hcase]
      exact fun l hl => splitTerminator_no_newline t l (List.mem_mergeSort.mp hl)
    have hsorted : List.Pairwise (fun a b => strLe a b = true) (m :: ms) := by
      rw [← hcase]
      exact @List.sorted_mergeSort (List Char) strLe
        (fun a b c h1 h2 => strLe_trans h1 h2) (fun a b => strLe_total a b) _
    have h1 : sortText t = joinNl (m :: ms) ++ ['\n'] := by
      unfold sortText
      rw [hcase]
    rw [h1]
    unfold sortText
    rw [splitTerminator_joinNl (by simp) hnl,
      @List.mergeSort_of_sorted (List Char) strLe _ hsorted, ← h1]

/-! ### Splicing whole-line spans out of joined text -/

theorem take_append_drop_lineOffset {ls : List (List Char)} {lo hi : Nat}
    (hlo : lo ≤ hi) (h2 : hi + 1 < ls.length) :
    (joinNl ls).take (lineOffset ls lo) ++ (joinNl ls).drop (lineOffset ls (hi + 1))
      = joinNlT (ls.take lo) ++ joinNl (ls.drop (hi + 1)) := by
  rw [joinNl_take_lineOffset ls (by omega), joinNl_drop_lineOffset ls h2]

theorem splitNl_joinNlT_take_append_joinNl_drop {ls : List (List Char)} {lo hi : Nat}
    (hnl : ∀ l ∈ ls, '\n' ∉ l) (h2 : hi + 1 < ls.length) :
    splitNl (joinNlT (ls.take lo) ++ joinNl (ls.drop (hi + 1)))
      = ls.take lo ++ ls.drop (hi + 1) := by
  have hdropne : ls.drop (hi + 1) ≠ [] := by
    intro e
    have := congrArg List.length e
    simp at this
    omega
  rw [splitNl_joinNlT_append (fun l hl => hnl l (List.take_subset _ _ hl)) _,
    splitNl_joinNl hdropne (fun l hl => hnl l (List.drop_subset _ _ hl))]

theorem lineOffset_last_add {ls : List (List Char)} {hi : Nat}
    (h2 : hi + 1 = ls.length) :
    lineOffset ls hi + (ls.getD hi []).length = (joinNl ls).length := by
  have hlt : hi < ls.length := by omega
  have hdecomp := joinNl_decomp ls hlt
  have hdrop : ls.drop hi = ls[hi] :: ls.drop (hi + 1) := List.drop_eq_getElem_cons hlt
  have hnil : ls.drop (hi + 1) = [] := by
    rw [h2]
    exact List.drop_length ls
  have hgetD : ls.getD hi [] = ls[hi] := List.getD_eq_getElem ls [] hlt
  rw [hdecomp, List.length_append, ← lineOffset_eq_take_length, hdrop, hnil, hgetD]
  simp [joinNl]

theorem splitNl_joinNlT_take {ls : List (List Char)} (lo : Nat)
    (hnl : ∀ l ∈ ls, '\n' ∉ l) :
    splitNl (joinNlT (ls.take lo)) = ls.take lo ++ [[]] := by
  have := @splitNl_joinNlT_append (ls.take lo)
    (fun l hl => hnl l (List.take_subset lo ls hl)) ([] : List Char)
  simpa [splitNl] using this

theorem data_take_drop_lt {data : List Char} {lo hi : Nat} (hlo : lo ≤ hi)
    (h2 : hi + 1 < (splitNl data).length) :
    splitNl (data.take (lineOffset (splitNl data) lo) ++
        data.drop (lineOffset (splitNl data) (hi + 1)))
      = (splitNl data).take lo ++ (splitNl data).drop (hi + 1) := by
  have h := take_append_drop_lineOffset hlo h2
  rw [joinNl_splitNl] at h
  rw [h]
  exact splitNl_joinNlT_take_append_joinNl_drop (splitNl_no_newline data) h2

theorem data_drop_last {data : List Char} {hi : Nat}
    (h2 : hi + 1 = (splitNl data).length) :
    data.drop (lineOffset (splitNl data) hi + ((splitNl data).getD hi []).length) = [] := by
  have h := lineOffset_last_add h2
  rw [joinNl_splitNl] at h
  rw [h]
  exact List.drop_length data

theorem data_take_lineOffset {data : List Char} {lo : Nat}
    (hlo : lo < (splitNl data).length) :
    data.take (lineOffset (splitNl data) lo) = joinNlT ((splitNl data).take lo) := by
  have h := joinNl_take_lineOffset (splitNl data) hlo
  rw [joinNl_splitNl] at h
  exact h

theorem data_drop_lineOffset {data : List Char} {lo : Nat}
    (hlo : lo < (splitNl data).length) :
    data.drop (lineOffset (splitNl data) lo) = joinNl ((splitNl data).drop lo) := by
  have h := joinNl_drop_lineOffset (splitNl data) hlo
  rw [joinNl_splitNl] at h
  exact h

/-! ### Claim theorems -/

/-- C1: in Select mode with a current buffer and anchor ≠ cursor,
`delete` removes exactly the text of the order-normalized range between
anchor and cursor — the characters from the flat index of the lower
position (inclusive) up to the flat index of the upper position
(exclusive) — and moves the cursor to the lower position. -/
theorem delete_select_removes_selection
    (app : Application) (b : Buffer) (anchor : Position)
    (hb : app.buffer = some b) (hm : app.mode = .select anchor)
    (hne : anchor ≠ b.cursor)
    (hva : anchor.valid b.data) (hvc : b.cursor.valid b.data) :
    ∃ b', delete app = .ok { app with buffer := some b' } ∧
      b'.data = b.data.take (posToIdx b.data (minPos b.cursor anchor)) ++
        b.data.drop (posToIdx b.data (maxPos b.cursor anchor)) ∧
      b'.cursor = minPos b.cursor anchor ∧
      posToIdx b.data (minPos b.cursor anchor) ≤ posToIdx b.data (maxPos b.cursor anchor) := by
  refine ⟨(b.delete_range (Range.new b.cursor anchor)).move_to (Range.new b.cursor anchor).start,
    ?_, ?_, ?_, ?_⟩
  · simp [delete, hb, hm]
  · rw [Range.new_eq]
    simp [Buffer.delete_range, Buffer.move_to]
  · rw [Range.new_eq]
    simp [Buffer.delete_range, Buffer.move_to]
  · exact posToIdx_mono (minPos_valid hvc hva) (maxPos_valid hvc hva) (minPos_le_maxPos _ _)

/-- Witness for C1 at a concrete state: buffer "ab", cursor (0,0),
Select anchor (0,1). -/
theorem delete_select_removes_selection_witness :
    ∃ b',
      delete
          { buffer := some { data := ['a', 'b'], cursor := ⟨0, 0⟩, events := [] },
            mode := .select ⟨0, 1⟩,
            clipboard := { content := .none, systemSyncFails := false } } =
        .ok { buffer := some b', mode := .select ⟨0, 1⟩,
              clipboard := { content := .none, systemSyncFails := false } } ∧
      b'.data = (['a', 'b'].take (posToIdx ['a', 'b'] (minPos ⟨0, 0⟩ ⟨0, 1⟩))) ++
        (['a', 'b'].drop (posToIdx ['a', 'b'] (maxPos ⟨0, 0⟩ ⟨0, 1⟩))) ∧
      b'.cursor = minPos ⟨0, 0⟩ ⟨0, 1⟩ ∧
      posToIdx ['a', 'b'] (minPos ⟨0, 0⟩ ⟨0, 1⟩) ≤
        posToIdx ['a', 'b'] (maxPos ⟨0, 0⟩ ⟨0, 1⟩) :=
  delete_select_removes_selection
    { buffer := some { data := ['a', 'b'], cursor := ⟨0, 0⟩, events := [] },
      mode := .select ⟨0, 1⟩,
      clipboard := { content := .none, systemSyncFails := false } }
    { data := ['a', 'b'], cursor := ⟨0, 0⟩, events := [] } ⟨0, 1⟩
    rfl rfl (by decide) (by decide) (by decide)

/-- C2: in SelectLine mode with a current buffer, `delete` removes the
full lines from min(anchor, cursor.line) to max(anchor, cursor.line)
inclusive — the trailing newline of the last included line going with
them unless that line is the buffer's final line, in which case the
deletion stops at end-of-buffer and a final empty line remains — and the
cursor moves to the start of the deleted range. -/
theorem delete_selectLine_removes_lines
    (app : Application) (b : Buffer) (anchor : Nat)
    (hb : app.buffer = some b) (hm : app.mode = .selectLine anchor)
    (ha : anchor < b.lineCount) (hc : b.cursor.line < b.lineCount) :
    ∃ b', delete app = .ok { app with buffer := some b' } ∧
      b'.cursor = ⟨min anchor b.cursor.line, 0⟩ ∧
      (max anchor b.cursor.line + 1 < b.lineCount →
        splitNl b'.data = (splitNl b.data).take (min anchor b.cursor.line) ++
          (splitNl b.data).drop (max anchor b.cursor.line + 1)) ∧
      (max anchor b.cursor.line + 1 = b.lineCount →
        splitNl b'.data = (splitNl b.data).take (min anchor b.cursor.line) ++ [[]]) := by
  have hlo : min anchor b.cursor.line ≤ max anchor b.cursor.line := by omega
  by_cases hcase : max anchor b.cursor.line + 1 < b.lineCount
  · have hr : selectLineToRange anchor b.cursor b =
        { start := ⟨min anchor b.cursor.line, 0⟩,
          stop := ⟨max anchor b.cursor.line + 1, 0⟩ } := by
      simp [selectLineToRange, inclusive_range, hcase]
    refine ⟨(b.delete_range (selectLineToRange anchor b.cursor b)).move_to
      (selectLineToRange anchor b.cursor b).start, ?_, ?_, ?_, ?_⟩
    · simp [delete, hb, hm]
    · rw [hr]
      simp [Buffer.delete_range, Buffer.move_to]
    · intro _
      rw [hr]
      simp only [Buffer.delete_range, Buffer.move_to, posToIdx]
      simp only [Nat.add_zero]
      exact data_take_drop_lt hlo hcase
    · intro h
      omega
  · have hlast : max anchor b.cursor.line + 1 = b.lineCount := by
      unfold Buffer.lineCount at *
      omega
    have hr : selectLineToRange anchor b.cursor b =
        { start := ⟨min anchor b.cursor.line, 0⟩,
          stop := ⟨max anchor b.cursor.line,
            (lineAt b.data (max anchor b.cursor.line)).length⟩ } := by
      simp [selectLineToRange, inclusive_range, hcase]
    refine ⟨(b.delete_range (selectLineToRange anchor b.cursor b)).move_to
      (selectLineToRange anchor b.cursor b).start, ?_, ?_, ?_, ?_⟩
    · simp [delete, hb, hm]
    · rw [hr]
      simp [Buffer.delete_range, Buffer.move_to]
    · intro h
      omega
    · intro _
      rw [hr]
      simp only [Buffer.delete_range, Buffer.move_to, posToIdx, lineAt]
      simp only [Nat.add_zero]
      rw [data_drop_last hlast, List.append_nil,
        data_take_lineOffset (show min anchor b.cursor.line < (splitNl b.data).length by
          have hlen : b.lineCount = (splitNl b.data).length := rfl
          omega)]
      exact splitNl_joinNlT_take _ (splitNl_no_newline b.data)

/-- Witness for C2 at a concrete state: buffer "a\nb\nc" (three lines),
cursor on line 1, SelectLine anchor 1. -/
theorem delete_selectLine_removes_lines_witness :
    ∃ b',
      delete
          { buffer := some { data := ['a', '\n', 'b', '\n', 'c'], cursor := ⟨1, 0⟩, events := [] },
            mode := .selectLine 1,
            clipboard := { content := .none, systemSyncFails := false } } =
        .ok { buffer := some b', mode := .selectLine 1,
              clipboard := { content := .none, systemSyncFails := false } } ∧
      b'.cursor = ⟨min 1 1, 0⟩ ∧
      (max 1 1 + 1 <
          (Buffer.lineCount { data := ['a', '\n', 'b', '\n', 'c'], cursor := ⟨1, 0⟩, events := [] }) →
        splitNl b'.data = (splitNl ['a', '\n', 'b', '\n', 'c']).take (min 1 1) ++
          (splitNl ['a', '\n', 'b', '\n', 'c']).drop (max 1 1 + 1)) ∧
      (max 1 1 + 1 =
          (Buffer.lineCount { data := ['a', '\n', 'b', '\n', 'c'], cursor := ⟨1, 0⟩, events := [] }) →
        splitNl b'.data = (splitNl ['a', '\n', 'b', '\n', 'c']).take (min 1 1) ++ [[]]) :=
  delete_selectLine_removes_lines
    { buffer := some { data := ['a', '\n', 'b', '\n', 'c'], cursor := ⟨1, 0⟩, events := [] },
      mode := .selectLine 1,
      clipboard := { content := .none, systemSyncFails := false } }
    { data := ['a', '\n', 'b', '\n', 'c'], cursor := ⟨1, 0⟩, events := [] } 1
    rfl rfl (by decide) (by decide)

/-- C5: in Search mode with a current buffer, `delete` removes the
selected match's range — leaving the cursor untouched rather than
explicitly repositioning it — when a result set with a selected match
exists, and otherwise fails with a descriptive error (no state change
accompanies the failure). -/
theorem delete_search_removes_match
    (app : Application) (b : Buffer) (results : Option SearchResults)
    (hb : app.buffer = some b) (hm : app.mode = .search results) :
    (∀ r, results.bind (fun rs => rs.selection) = some r →
      delete app = .ok { app with buffer := some (b.delete_range r) } ∧
        (b.delete_range r).cursor = b.cursor) ∧
    (results.bind (fun rs => rs.selection) = none →
      delete app = .error "Can't delete in search mode without a selected result") := by
  constructor
  · intro r hr
    constructor
    · simp [delete, hb, hm, hr]
    · simp [Buffer.delete_range]
  · intro hr
    simp [delete, hb, hm, hr]

/-- Witness for C5 at a concrete state: buffer "ab" in Search mode with
a selected match covering the first character. -/
theorem delete_search_removes_match_witness :
    (∀ r, (some (SearchResults.mk (some ⟨⟨0, 0⟩, ⟨0, 1⟩⟩))).bind (fun rs => rs.selection) =
        some r →
      delete
          { buffer := some { data := ['a', 'b'], cursor := ⟨0, 0⟩, events := [] },
            mode := .search (some (SearchResults.mk (some ⟨⟨0, 0⟩, ⟨0, 1⟩⟩))),
            clipboard := { content := .none, systemSyncFails := false } } =
        .ok { buffer := some (({ data := ['a', 'b'], cursor := ⟨0, 0⟩, events := [] } :
                  Buffer).delete_range r),
              mode := .search (some (SearchResults.mk (some ⟨⟨0, 0⟩, ⟨0, 1⟩⟩))),
              clipboard := { content := .none, systemSyncFails := false } } ∧
        (({ data := ['a', 'b'], cursor := ⟨0, 0⟩, events := [] } :
            Buffer).delete_range r).cursor = (⟨0, 0⟩ : Position)) ∧
    ((some (SearchResults.mk (some ⟨⟨0, 0⟩, ⟨0, 1⟩⟩))).bind (fun rs => rs.selection) = none →
      delete
          { buffer := some { data := ['a', 'b'], cursor := ⟨0, 0⟩, events := [] },
            mode := .search (some (SearchResults.mk (some ⟨⟨0, 0⟩, ⟨0, 1⟩⟩))),
            clipboard := { content := .none, systemSyncFails := false } } =
        .error "Can't delete in search mode without a selected result") :=
  delete_search_removes_match
    { buffer := some { data := ['a', 'b'], cursor := ⟨0, 0⟩, events := [] },
      mode := .search (some (SearchResults.mk (some ⟨⟨0, 0⟩, ⟨0, 1⟩⟩))),
      clipboard := { content := .none, systemSyncFails := false } }
    { data := ['a', 'b'], cursor := ⟨0, 0⟩, events := [] }
    (some (SearchResults.mk (some ⟨⟨0, 0⟩, ⟨0, 1⟩⟩))) rfl rfl

/-- C6: `select_all` fails exactly when no buffer is active; on a
non-empty current buffer it succeeds, leaving the application in
SelectLine mode with anchor 0, the buffer data unchanged, and the cursor
on the buffer's last line index. -/
theorem select_all_selects_whole_buffer (app : Application) :
    (app.buffer = none → select_all app = .error BUFFER_MISSING) ∧
    (∀ b, app.buffer = some b → b.data ≠ [] →
      ∃ b', select_all app = .ok { app with mode := .selectLine 0, buffer := some b' } ∧
        b'.cursor.line = b.lastLineIndex ∧ b'.data = b.data) := by
  constructor
  · intro h
    simp [select_all, h, Bind.bind, Except.bind]
  · intro b hb hne
    refine ⟨b.move_to_first_line.move_to_last_line, ?_, ?_, ?_⟩
    · simp [select_all, hb, switch_to_select_line_mode, Buffer.move_to_first_line,
        Buffer.move_to, Bind.bind, Except.bind]
    · simp [Buffer.move_to_last_line, Buffer.move_to, Buffer.move_to_first_line,
        Buffer.lastLineIndex, Buffer.lineCount]
    · simp [Buffer.move_to_last_line, Buffer.move_to, Buffer.move_to_first_line]

/-- Witness for C6 at a concrete state: buffer "a\nb" with the cursor
on line 1. -/
theorem select_all_selects_whole_buffer_witness :
    ((some { data := ['a', '\n', 'b'], cursor := ⟨1, 1⟩, events := [] } :
        Option Buffer) = none →
      select_all
          { buffer := some { data := ['a', '\n', 'b'], cursor := ⟨1, 1⟩, events := [] },
            mode := .normal,
            clipboard := { content := .none, systemSyncFails := false } } =
        .error BUFFER_MISSING) ∧
    (∀ b, (some { data := ['a', '\n', 'b'], cursor := ⟨1, 1⟩, events := [] } :
        Option Buffer) = some b → b.data ≠ [] →
      ∃ b',
        select_all
            { buffer := some { data := ['a', '\n', 'b'], cursor := ⟨1, 1⟩, events := [] },
              mode := .normal,
              clipboard := { content := .none, systemSyncFails := false } } =
          .ok { buffer := some b', mode := .selectLine 0,
                clipboard := { content := .none, systemSyncFails := false } } ∧
          b'.cursor.line = b.lastLineIndex ∧ b'.data = b.data) :=
  select_all_selects_whole_buffer
    { buffer := some { data := ['a', '\n', 'b'], cursor := ⟨1, 1⟩, events := [] },
      mode := .normal,
      clipboard := { content := .none, systemSyncFails := false } }

/-- C9: with a current buffer but in Normal or Insert mode, `delete`,
`copy` and `sort_lines` each fail with their mode-mismatch error; as the
commands return errors carrying no state, the buffer is untouched. -/
theorem wrong_mode_commands_fail
    (app : Application) (b : Buffer)
    (hb : app.buffer = some b)
    (hm : app.mode = .normal ∨ app.mode = .insert) :
    delete app = .error "Can't delete selections outside of select mode" ∧
    copy app = .error "Can't copy data to clipboard outside of select modes" ∧
    sort_lines app = .error "Can't sort lines outside of select line mode" := by
  have hctc : copy_to_clipboard app =
      .error "Can't copy data to clipboard outside of select modes" := by
    rcases hm with h | h <;> simp [copy_to_clipboard, hb, h]
  refine ⟨?_, ?_, ?_⟩
  · rcases hm with h | h <;> simp [delete, hb, h]
  · simp [copy, hctc, Bind.bind, Except.bind]
  · rcases hm with h | h <;> simp [sort_lines, hb, h]

/-- Witness for C9 at a concrete state: buffer "ab" in Normal mode. -/
theorem wrong_mode_commands_fail_witness :
    delete
        { buffer := some { data := ['a', 'b'], cursor := ⟨0, 0⟩, events := [] },
          mode := .normal,
          clipboard := { content := .none, systemSyncFails := false } } =
      .error "Can't delete selections outside of select mode" ∧
    copy
        { buffer := some { data := ['a', 'b'], cursor := ⟨0, 0⟩, events := [] },
          mode := .normal,
          clipboard := { content := .none, systemSyncFails := false } } =
      .error "Can't copy data to clipboard outside of select modes" ∧
    sort_lines
        { buffer := some { data := ['a', 'b'], cursor := ⟨0, 0⟩, events := [] },
          mode := .normal,
          clipboard := { content := .none, systemSyncFails := false } } =
      .error "Can't sort lines outside of select line mode" :=
  wrong_mode_commands_fail
    { buffer := some { data := ['a', 'b'], cursor := ⟨0, 0⟩, events := [] },
      mode := .normal,
      clipboard := { content := .none, systemSyncFails := false } }
    { data := ['a', 'b'], cursor := ⟨0, 0⟩, events := [] }
    rfl (Or.inl rfl)

/-- C4: when the system clipboard sync fails, `copy` propagates the
failure (and never reaches the switch to normal mode, so the error is
the sync error itself), while `copy_and_delete` swallows it, still
performs the delete, and succeeds with the post-delete buffer. -/
theorem sync_failure_copy_vs_copy_and_delete
    (app : Application) (b : Buffer) (anchor : Position)
    (hb : app.buffer = some b) (hm : app.mode = .select anchor)
    (hsync : app.clipboard.systemSyncFails = true)
    (hva : anchor.valid b.data) (hvc : b.cursor.valid b.data) :
    copy app = .error "Couldn't sync with system clipboard" ∧
    copy_and_delete app = delete app ∧
    ∃ b', copy_and_delete app = .ok { app with buffer := some b' } := by
  have hvalid : (Range.new b.cursor anchor).start.valid b.data ∧
      (Range.new b.cursor anchor).stop.valid b.data := by
    rw [Range.new_eq]
    exact ⟨minPos_valid hvc hva, maxPos_valid hvc hva⟩
  have hread : b.read (Range.new b.cursor anchor) =
      some ((b.data.take (posToIdx b.data (Range.new b.cursor anchor).stop)).drop
        (posToIdx b.data (Range.new b.cursor anchor).start)) := by
    unfold Buffer.read
    rw [if_pos hvalid]
  have hctc : copy_to_clipboard app = .error "Couldn't sync with system clipboard" := by
    simp [copy_to_clipboard, hb, hm, hread, Clipboard.set_content, hsync]
  refine ⟨?_, ?_, ?_⟩
  · simp [copy, hctc, Bind.bind, Except.bind]
  · simp [copy_and_delete, hctc]
  · refine ⟨(b.delete_range (Range.new b.cursor anchor)).move_to
      (Range.new b.cursor anchor).start, ?_⟩
    simp [copy_and_delete, hctc, delete, hb, hm]

/-- Witness for C4 at a concrete state: buffer "ab", Select anchor
(0,1), cursor (0,0), failing system clipboard sync. -/
theorem sync_failure_copy_vs_copy_and_delete_witness :
    copy
        { buffer := some { data := ['a', 'b'], cursor := ⟨0, 0⟩, events := [] },
          mode := .select ⟨0, 1⟩,
          clipboard := { content := .none, systemSyncFails := true } } =
      .error "Couldn't sync with system clipboard" ∧
    copy_and_delete
        { buffer := some { data := ['a', 'b'], cursor := ⟨0, 0⟩, events := [] },
          mode := .select ⟨0, 1⟩,
          clipboard := { content := .none, systemSyncFails := true } } =
      delete
        { buffer := some { data := ['a', 'b'], cursor := ⟨0, 0⟩, events := [] },
          mode := .select ⟨0, 1⟩,
          clipboard := { content := .none, systemSyncFails := true } } ∧
    ∃ b',
      copy_and_delete
          { buffer := some { data := ['a', 'b'], cursor := ⟨0, 0⟩, events := [] },
            mode := .select ⟨0, 1⟩,
            clipboard := { content := .none, systemSyncFails := true } } =
        .ok { buffer := some b', mode := .select ⟨0, 1⟩,
              clipboard := { content := .none, systemSyncFails := true } } :=
  sync_failure_copy_vs_copy_and_delete
    { buffer := some { data := ['a', 'b'], cursor := ⟨0, 0⟩, events := [] },
      mode := .select ⟨0, 1⟩,
      clipboard := { content := .none, systemSyncFails := true } }
    { data := ['a', 'b'], cursor := ⟨0, 0⟩, events := [] } ⟨0, 1⟩
    rfl rfl rfl (by decide) (by decide)

/-- C10: in Search mode — even with a selected match present, the very
state where `delete` succeeds — `copy` and the internal copy step fail
with the mode-mismatch error; `copy_and_delete` and `change` therefore
leave the clipboard untouched; and any successful `copy_to_clipboard`
run can only have stored Inline content from Select mode or Block
content from SelectLine mode. -/
theorem copy_fails_in_search_mode
    (app : Application) (b : Buffer) (results : Option SearchResults) (r : Range)
    (hb : app.buffer = some b) (hm : app.mode = .search results)
    (hsel : results.bind (fun rs => rs.selection) = some r) :
    copy_to_clipboard app = .error "Can't copy data to clipboard outside of select modes" ∧
    copy app = .error "Can't copy data to clipboard outside of select modes" ∧
    copy_and_delete app = delete app ∧
    delete app = .ok { app with buffer := some (b.delete_range r) } ∧
    (∀ app', copy_and_delete app = .ok app' → app'.clipboard = app.clipboard) ∧
    (∀ app', change app = .ok app' → app'.clipboard = app.clipboard) ∧
    (∀ a a' : Application, copy_to_clipboard a = .ok a' →
      (∃ p d, a.mode = .select p ∧ a'.clipboard.content = .inline d) ∨
      (∃ n d, a.mode = .selectLine n ∧ a'.clipboard.content = .block d)) := by
  have hctc : copy_to_clipboard app =
      .error "Can't copy data to clipboard outside of select modes" := by
    simp [copy_to_clipboard, hb, hm]
  have hcad : copy_and_delete app = delete app := by
    simp [copy_and_delete, hctc]
  have hdel : delete app = .ok { app with buffer := some (b.delete_range r) } := by
    simp [delete, hb, hm, hsel]
  refine ⟨hctc, ?_, hcad, hdel, ?_, ?_, ?_⟩
  · simp [copy, hctc, Bind.bind, Except.bind]
  · intro app' h
    rw [hcad, hdel] at h
    cases h
    rfl
  · intro app' h
    simp only [change, hctc] at h
    rw [hdel] at h
    simp [Bind.bind, Except.bind, switch_to_insert_mode, scroll_to_cursor] at h
    subst h
    rfl
  · intro a a' h
    cases hb0 : a.buffer with
    | none => simp [copy_to_clipboard, hb0] at h
    | some b0 =>
      cases hm0 : a.mode with
      | normal => simp [copy_to_clipboard, hb0, hm0] at h
      | insert => simp [copy_to_clipboard, hb0, hm0] at h
      | search res => simp [copy_to_clipboard, hb0, hm0] at h
      | select p =>
        left
        cases hr : b0.read (Range.new b0.cursor p) with
        | none => simp [copy_to_clipboard, hb0, hm0, hr] at h
        | some d =>
          by_cases hs : a.clipboard.systemSyncFails
          · simp [copy_to_clipboard, hb0, hm0, hr, Clipboard.set_content, hs] at h
          · simp [copy_to_clipboard, hb0, hm0, hr, Clipboard.set_content, hs] at h
            subst h
            exact ⟨p, d, rfl, rfl⟩
      | selectLine n =>
        right
        cases hr : b0.read (inclusive_range n b0.cursor.line b0) with
        | none => simp [copy_to_clipboard, hb0, hm0, hr] at h
        | some d =>
          by_cases hs : a.clipboard.systemSyncFails
          · simp [copy_to_clipboard, hb0, hm0, hr, Clipboard.set_content, hs] at h
          · simp [copy_to_clipboard, hb0, hm0, hr, Clipboard.set_content, hs] at h
            subst h
            exact ⟨n, d, rfl, rfl⟩

/-- Witness for C10 at a concrete state: buffer "ab" in Search mode
with a selected match covering the first character. -/
theorem copy_fails_in_search_mode_witness :
    copy_to_clipboard
        { buffer := some { data := ['a', 'b'], cursor := ⟨0, 0⟩, events := [] },
          mode := .search (some (SearchResults.mk (some ⟨⟨0, 0⟩, ⟨0, 1⟩⟩))),
          clipboard := { content := .none, systemSyncFails := false } } =
      .error "Can't copy data to clipboard outside of select modes" ∧
    copy
        { buffer := some { data := ['a', 'b'], cursor := ⟨0, 0⟩, events := [] },
          mode := .search (some (SearchResults.mk (some ⟨⟨0, 0⟩, ⟨0, 1⟩⟩))),
          clipboard := { content := .none, systemSyncFails := false } } =
      .error "Can't copy data to clipboard outside of select modes" ∧
    copy_and_delete
        { buffer := some { data := ['a', 'b'], cursor := ⟨0, 0⟩, events := [] },
          mode := .search (some (SearchResults.mk (some ⟨⟨0, 0⟩, ⟨0, 1⟩⟩))),
          clipboard := { content := .none, systemSyncFails := false } } =
      delete
        { buffer := some { data := ['a', 'b'], cursor := ⟨0, 0⟩, events := [] },
          mode := .search (some (SearchResults.mk (some ⟨⟨0, 0⟩, ⟨0, 1⟩⟩))),
          clipboard := { content := .none, systemSyncFails := false } } ∧
    delete
        { buffer := some { data := ['a', 'b'], cursor := ⟨0, 0⟩, events := [] },
          mode := .search (some (SearchResults.mk (some ⟨⟨0, 0⟩, ⟨0, 1⟩⟩))),
          clipboard := { content := .none, systemSyncFails := false } } =
      .ok { buffer := some (({ data := ['a', 'b'], cursor := ⟨0, 0⟩, events := [] } :
                Buffer).delete_range ⟨⟨0, 0⟩, ⟨0, 1⟩⟩),
            mode := .search (some (SearchResults.mk (some ⟨⟨0, 0⟩, ⟨0, 1⟩⟩))),
            clipboard := { content := .none, systemSyncFails := false } } ∧
    (∀ app', copy_and_delete
        { buffer := some { data := ['a', 'b'], cursor := ⟨0, 0⟩, events := [] },
          mode := .search (some (SearchResults.mk (some ⟨⟨0, 0⟩, ⟨0, 1⟩⟩))),
          clipboard := { content := .none, systemSyncFails := false } } = .ok app' →
      app'.clipboard = { content := .none, systemSyncFails := false }) ∧
    (∀ app', change
        { buffer := some { data := ['a', 'b'], cursor := ⟨0, 0⟩, events := [] },
          mode := .search (some (SearchResults.mk (some ⟨⟨0, 0⟩, ⟨0, 1⟩⟩))),
          clipboard := { content := .none, systemSyncFails := false } } = .ok app' →
      app'.clipboard = { content := .none, systemSyncFails := false }) ∧
    (∀ a a' : Application, copy_to_clipboard a = .ok a' →
      (∃ p d, a.mode = .select p ∧ a'.clipboard.content = .inline d) ∨
      (∃ n d, a.mode = .selectLine n ∧ a'.clipboard.content = .block d)) :=
  copy_fails_in_search_mode
    { buffer := some { data := ['a', 'b'], cursor := ⟨0, 0⟩, events := [] },
      mode := .search (some (SearchResults.mk (some ⟨⟨0, 0⟩, ⟨0, 1⟩⟩))),
      clipboard := { content := .none, systemSyncFails := false } }
    { data := ['a', 'b'], cursor := ⟨0, 0⟩, events := [] }
    (some (SearchResults.mk (some ⟨⟨0, 0⟩, ⟨0, 1⟩⟩))) ⟨⟨0, 0⟩, ⟨0, 1⟩⟩
    rfl rfl rfl

/-! ### The sort-lines execution helper -/

theorem posToIdx_spliced {d1 data : List Char} {lo : Nat} {X : List (List Char)}
    (hsplit : splitNl d1 = (splitNl data).take lo ++ X)
    (hlo : lo ≤ (splitNl data).length) :
    posToIdx d1 ⟨lo, 0⟩ = lineOffset (splitNl data) lo := by
  unfold posToIdx
  rw [hsplit]
  simp only [Nat.add_zero]
  rw [lineOffset_append _ _ (by simp [List.length_take]; omega), lineOffset_take _ hlo]

theorem take_spliced {data : List Char} {iLo iHi : Nat} (h1 : iLo ≤ data.length) :
    (data.take iLo ++ data.drop iHi).take iLo = data.take iLo :=
  List.take_left' (by simp; omega)

theorem drop_spliced {data : List Char} {iLo iHi : Nat} (h1 : iLo ≤ data.length) :
    (data.take iLo ++ data.drop iHi).drop iLo = data.drop iHi :=
  List.drop_left' (by simp; omega)

theorem sort_chain_eq (b : Buffer) (r : Range) (s : List Char)
    (hpos : posToIdx (b.delete_range r).data r.start = posToIdx b.data r.start)
    (h1 : posToIdx b.data r.start ≤ b.data.length) :
    (((((b.start_operation_group).delete_range r).move_to r.start).insert s).end_operation_group)
      = { data := b.data.take (posToIdx b.data r.start) ++ s ++
            b.data.drop (posToIdx b.data r.stop),
          cursor := r.start,
          events := b.events ++ [.startGroup, .deleteEvent r, .moveEvent r.start,
            .insertEvent s, .endGroup] } := by
  simp only [Buffer.start_operation_group, Buffer.delete_range, Buffer.move_to, Buffer.insert,
    Buffer.end_operation_group, Buffer.mk.injEq] at hpos ⊢
  refine ⟨by rw [hpos, take_spliced h1, drop_spliced h1], by simp, by simp⟩

/-- Full characterisation of a successful `sort_lines` run: the resolved
range, its flat indices, the text read, and the exact resulting
application state, including the ordered mutation trace. -/
theorem sortLines_run
    (app : Application) (b : Buffer) (anchor : Nat)
    (hb : app.buffer = some b) (hm : app.mode = .selectLine anchor)
    (ha : anchor < b.lineCount) (hc : b.cursor.line < b.lineCount) :
    ∃ r iLo iHi t,
      r = inclusive_range anchor b.cursor.line b ∧
      iLo = posToIdx b.data r.start ∧
      iHi = posToIdx b.data r.stop ∧
      t = (b.data.take iHi).drop iLo ∧
      r.start = ⟨min anchor b.cursor.line, 0⟩ ∧
      iLo ≤ iHi ∧ iHi ≤ b.data.length ∧
      b.read r = some t ∧
      sort_lines app = .ok { app with mode := .normal, buffer := some {
        data := b.data.take iLo ++ sortText t ++ b.data.drop iHi,
        cursor := r.start,
        events := b.events ++ [.startGroup, .deleteEvent r, .moveEvent r.start,
          .insertEvent (sortText t), .endGroup] } } := by
  have hlen : b.lineCount = (splitNl b.data).length := rfl
  have ha' : anchor < (splitNl b.data).length := by omega
  have hc' : b.cursor.line < (splitNl b.data).length := by omega
  have hlomax : min anchor b.cursor.line ≤ max anchor b.cursor.line := by omega
  have hmaxlt : max anchor b.cursor.line < (splitNl b.data).length := by omega
  have hlolt : min anchor b.cursor.line < (splitNl b.data).length := by omega
  by_cases hcase : max anchor b.cursor.line + 1 < b.lineCount
  · -- the selection does not reach the buffer's last line
    have hcase' : max anchor b.cursor.line + 1 < (splitNl b.data).length := by omega
    have hr : inclusive_range anchor b.cursor.line b =
        ⟨⟨min anchor b.cursor.line, 0⟩, ⟨max anchor b.cursor.line + 1, 0⟩⟩ := by
      simp [inclusive_range, hcase]
    have hiLo : posToIdx b.data (⟨min anchor b.cursor.line, 0⟩ : Position) =
        lineOffset (splitNl b.data) (min anchor b.cursor.line) := by
      simp [posToIdx]
    have hiHi : posToIdx b.data (⟨max anchor b.cursor.line + 1, 0⟩ : Position) =
        lineOffset (splitNl b.data) (max anchor b.cursor.line + 1) := by
      simp [posToIdx]
    have hle1 : lineOffset (splitNl b.data) (min anchor b.cursor.line) ≤
        lineOffset (splitNl b.data) (max anchor b.cursor.line + 1) :=
      lineOffset_mono _ (by omega)
    have hle2 : lineOffset (splitNl b.data) (max anchor b.cursor.line + 1) ≤
        b.data.length := by
      have := lineOffset_le_length (splitNl b.data) hcase'
      rwa [joinNl_splitNl] at this
    have hvalid : (⟨min anchor b.cursor.line, 0⟩ : Position).valid b.data ∧
        (⟨max anchor b.cursor.line + 1, 0⟩ : Position).valid b.data := by
      refine ⟨⟨?_, Nat.zero_le _⟩, ⟨?_, Nat.zero_le _⟩⟩
      · show min anchor b.cursor.line < (splitNl b.data).length
        omega
      · show max anchor b.cursor.line + 1 < (splitNl b.data).length
        omega
    have hread : b.read (inclusive_range anchor b.cursor.line b) =
        some ((b.data.take (posToIdx b.data (inclusive_range anchor b.cursor.line b).stop)).drop
          (posToIdx b.data (inclusive_range anchor b.cursor.line b).start)) := by
      rw [hr]
      unfold Buffer.read
      rw [if_pos hvalid]
    have hsplit : splitNl ((b.delete_range (inclusive_range anchor b.cursor.line b)).data) =
        (splitNl b.data).take (min anchor b.cursor.line) ++
          (splitNl b.data).drop (max anchor b.cursor.line + 1) := by
      rw [hr]
      simp only [Buffer.delete_range, hiLo, hiHi]
      exact data_take_drop_lt hlomax hcase'
    have hpos : posToIdx ((b.delete_range (inclusive_range anchor b.cursor.line b)).data)
        (inclusive_range anchor b.cursor.line b).start =
        posToIdx b.data (inclusive_range anchor b.cursor.line b).start := by
      rw [hr]
      rw [hr] at hsplit
      rw [posToIdx_spliced hsplit (by omega), hiLo]
    have h1 : posToIdx b.data (inclusive_range anchor b.cursor.line b).start ≤
        b.data.length := by
      rw [hr, hiLo]
      omega
    refine ⟨_, _, _, _, rfl, rfl, rfl, rfl, by rw [hr], ?_, ?_, hread, ?_⟩
    · rw [hr, hiLo, hiHi]
      exact hle1
    · rw [hr, hiHi]
      exact hle2
    · simp only [sort_lines, hb, hm, hread]
      rw [sort_chain_eq b _ _ hpos h1]
      simp [switch_to_normal_mode]
  · -- the selection reaches the buffer's last line
    have hlast : max anchor b.cursor.line + 1 = (splitNl b.data).length := by omega
    have hr : inclusive_range anchor b.cursor.line b =
        ⟨⟨min anchor b.cursor.line, 0⟩, ⟨max anchor b.cursor.line,
          (lineAt b.data (max anchor b.cursor.line)).length⟩⟩ := by
      simp [inclusive_range, hcase]
    have hiLo : posToIdx b.data (⟨min anchor b.cursor.line, 0⟩ : Position) =
        lineOffset (splitNl b.data) (min anchor b.cursor.line) := by
      simp [posToIdx]
    have hiHiEq : posToIdx b.data (⟨max anchor b.cursor.line,
        (lineAt b.data (max anchor b.cursor.line)).length⟩ : Position) = b.data.length := by
      have h := lineOffset_last_add hlast
      rw [joinNl_splitNl] at h
      show lineOffset (splitNl b.data) (max anchor b.cursor.line) +
        (lineAt b.data (max anchor b.cursor.line)).length = b.data.length
      unfold lineAt
      omega
    have hle1 : lineOffset (splitNl b.data) (min anchor b.cursor.line) ≤ b.data.length := by
      have h := lineOffset_add_line_le (splitNl b.data) hmaxlt
      rw [joinNl_splitNl] at h
      have := lineOffset_mono (splitNl b.data) hlomax
      omega
    have hvalid : (⟨min anchor b.cursor.line, 0⟩ : Position).valid b.data ∧
        (⟨max anchor b.cursor.line,
          (lineAt b.data (max anchor b.cursor.line)).length⟩ : Position).valid b.data := by
      refine ⟨⟨?_, Nat.zero_le _⟩, ⟨?_, Nat.le_refl _⟩⟩
      · show min anchor b.cursor.line < (splitNl b.data).length
        omega
      · show max anchor b.cursor.line < (splitNl b.data).length
        omega
    have hread : b.read (inclusive_range anchor b.cursor.line b) =
        some ((b.data.take (posToIdx b.data (inclusive_range anchor b.cursor.line b).stop)).drop
          (posToIdx b.data (inclusive_range anchor b.cursor.line b).start)) := by
      rw [hr]
      unfold Buffer.read
      rw [if_pos hvalid]
    have hddrop : b.data.drop (posToIdx b.data (inclusive_range anchor b.cursor.line b).stop)
        = [] := by
      rw [hr]
      simp only [hiHiEq]
      exact List.drop_length b.data
    have hsplit : splitNl ((b.delete_range (inclusive_range anchor b.cursor.line b)).data) =
        (splitNl b.data).take (min anchor b.cursor.line) ++ [[]] := by
      simp only [Buffer.delete_range]
      rw [hddrop, List.append_nil, hr]
      simp only [hiLo]
      rw [data_take_lineOffset hlolt]
      exact splitNl_joinNlT_take _ (splitNl_no_newline b.data)
    have hpos : posToIdx ((b.delete_range (inclusive_range anchor b.cursor.line b)).data)
        (inclusive_range anchor b.cursor.line b).start =
        posToIdx b.data (inclusive_range anchor b.cursor.line b).start := by
      have h := posToIdx_spliced hsplit (le_of_lt hlolt)
      rw [hr] at h ⊢
      rw [h, hiLo]
    have h1 : posToIdx b.data (inclusive_range anchor b.cursor.line b).start ≤
        b.data.length := by
      rw [hr, hiLo]
      exact hle1
    refine ⟨_, _, _, _, rfl, rfl, rfl, rfl, by rw [hr], ?_, ?_, hread, ?_⟩
    · rw [hr, hiLo, hiHiEq]
      exact hle1
    · rw [hr, hiHiEq]
    · simp only [sort_lines, hb, hm, hread]
      rw [sort_chain_eq b _ _ hpos h1]
      simp [switch_to_normal_mode]

theorem take_slice_drop (data : List Char) {iLo iHi : Nat}
    (h1 : iLo ≤ iHi) (h2 : iHi ≤ data.length) :
    data.take iLo ++ (data.take iHi).drop iLo ++ data.drop iHi = data := by
  have htk : data.take iLo = (data.take iHi).take iLo := by
    rw [List.take_take, Nat.min_eq_left h1]
  calc data.take iLo ++ (data.take iHi).drop iLo ++ data.drop iHi
      = ((data.take iHi).take iLo ++ (data.take iHi).drop iLo) ++ data.drop iHi := by
        rw [← htk]
    _ = data.take iHi ++ data.drop iHi := by rw [List.take_append_drop]
    _ = data := List.take_append_drop _ _

/-- C3: in SelectLine mode with a current buffer, `sort_lines` replaces
the text of the resolved inclusive line range by its lines — split on
newline terminators with a trailing empty segment discarded — sorted
stably ascending under ordinal comparison (the sort is a permutation,
pairwise ordered, computed by the stable merge sort), rejoined with
single newline separators and given exactly one appended trailing
newline whether or not the original range ended in one. -/
theorem sort_lines_sorts_selection
    (app : Application) (b : Buffer) (anchor : Nat)
    (hb : app.buffer = some b) (hm : app.mode = .selectLine anchor)
    (ha : anchor < b.lineCount) (hc : b.cursor.line < b.lineCount) :
    ∃ iLo iHi t b',
      iLo = posToIdx b.data (inclusive_range anchor b.cursor.line b).start ∧
      iHi = posToIdx b.data (inclusive_range anchor b.cursor.line b).stop ∧
      iLo ≤ iHi ∧ iHi ≤ b.data.length ∧
      b.read (inclusive_range anchor b.cursor.line b) = some t ∧
      t = (b.data.take iHi).drop iLo ∧
      sort_lines app = .ok { app with mode := .normal, buffer := some b' } ∧
      b'.data = b.data.take iLo ++
        (joinNl ((splitTerminator t).mergeSort strLe) ++ ['\n']) ++ b.data.drop iHi ∧
      List.Pairwise (fun x y => strLe x y = true) ((splitTerminator t).mergeSort strLe) ∧
      ((splitTerminator t).mergeSort strLe).Perm (splitTerminator t) := by
  obtain ⟨r, iLo, iHi, t, hr, hiLo, hiHi, ht, hstart, hle, hlen2, hread, hrun⟩ :=
    sortLines_run app b anchor hb hm ha hc
  subst hr
  refine ⟨iLo, iHi, t, _, hiLo, hiHi, hle, hlen2, hread, ht, hrun, rfl, ?_, ?_⟩
  · exact @List.sorted_mergeSort (List Char) strLe
      (fun x y z h1 h2 => strLe_trans h1 h2) (fun x y => strLe_total x y) _
  · exact List.mergeSort_perm _ _

/-- Witness for C3 at a concrete state: buffer "b\na" entirely selected
in SelectLine mode. -/
theorem sort_lines_sorts_selection_witness :
    ∃ iLo iHi t b',
      iLo = posToIdx ['b', '\n', 'a']
        (inclusive_range 0 1 { data := ['b', '\n', 'a'], cursor := ⟨1, 0⟩, events := [] }).start ∧
      iHi = posToIdx ['b', '\n', 'a']
        (inclusive_range 0 1 { data := ['b', '\n', 'a'], cursor := ⟨1, 0⟩, events := [] }).stop ∧
      iLo ≤ iHi ∧ iHi ≤ (['b', '\n', 'a'] : List Char).length ∧
      Buffer.read { data := ['b', '\n', 'a'], cursor := ⟨1, 0⟩, events := [] }
        (inclusive_range 0 1 { data := ['b', '\n', 'a'], cursor := ⟨1, 0⟩, events := [] }) =
        some t ∧
      t = ((['b', '\n', 'a'] : List Char).take iHi).drop iLo ∧
      sort_lines
          { buffer := some { data := ['b', '\n', 'a'], cursor := ⟨1, 0⟩, events := [] },
            mode := .selectLine 0,
            clipboard := { content := .none, systemSyncFails := false } } =
        .ok { buffer := some b', mode := .normal,
              clipboard := { content := .none, systemSyncFails := false } } ∧
      b'.data = (['b', '\n', 'a'] : List Char).take iLo ++
        (joinNl ((splitTerminator t).mergeSort strLe) ++ ['\n']) ++
        (['b', '\n', 'a'] : List Char).drop iHi ∧
      List.Pairwise (fun x y => strLe x y = true) ((splitTerminator t).mergeSort strLe) ∧
      ((splitTerminator t).mergeSort strLe).Perm (splitTerminator t) :=
  sort_lines_sorts_selection
    { buffer := some { data := ['b', '\n', 'a'], cursor := ⟨1, 0⟩, events := [] },
      mode := .selectLine 0,
      clipboard := { content := .none, systemSyncFails := false } }
    { data := ['b', '\n', 'a'], cursor := ⟨1, 0⟩, events := [] } 0
    rfl rfl (by decide) (by decide)

/-- C7: `sort_lines` is idempotent — when the selected line range's text
is already the output of the sort-lines transformation, running
`sort_lines` succeeds and leaves the buffer content byte-identical. -/
theorem sort_lines_idempotent
    (app : Application) (b : Buffer) (anchor : Nat) (u : List Char)
    (hb : app.buffer = some b) (hm : app.mode = .selectLine anchor)
    (ha : anchor < b.lineCount) (hc : b.cursor.line < b.lineCount)
    (hsorted : b.read (inclusive_range anchor b.cursor.line b) = some (sortText u)) :
    ∃ b', sort_lines app = .ok { app with mode := .normal, buffer := some b' } ∧
      b'.data = b.data := by
  obtain ⟨r, iLo, iHi, t, hr, hiLo, hiHi, ht, hstart, hle, hlen2, hread, hrun⟩ :=
    sortLines_run app b anchor hb hm ha hc
  subst hr
  have htu : t = sortText u := by
    rw [hread] at hsorted
    exact Option.some.inj hsorted
  have hfix : sortText t = t := by
    rw [htu, sortText_idem]
  refine ⟨_, hrun, ?_⟩
  show b.data.take iLo ++ sortText t ++ b.data.drop iHi = b.data
  rw [hfix, ht]
  exact take_slice_drop b.data hle hlen2

/-- Witness for C7 at a concrete state: buffer "b\na" with line 0
selected; its text "b\n" is the sort-lines output of "b". -/
theorem sort_lines_idempotent_witness :
    ∃ b',
      sort_lines
          { buffer := some { data := ['b', '\n', 'a'], cursor := ⟨0, 0⟩, events := [] },
            mode := .selectLine 0,
            clipboard := { content := .none, systemSyncFails := false } } =
        .ok { buffer := some b', mode := .normal,
              clipboard := { content := .none, systemSyncFails := false } } ∧
      b'.data = ['b', '\n', 'a'] :=
  sort_lines_idempotent
    { buffer := some { data := ['b', '\n', 'a'], cursor := ⟨0, 0⟩, events := [] },
      mode := .selectLine 0,
      clipboard := { content := .none, systemSyncFails := false } }
    { data := ['b', '\n', 'a'], cursor := ⟨0, 0⟩, events := [] } 0 ['b']
    rfl rfl (by decide) (by decide)
    (by
      have hsp : splitTerminator ['b'] = [['b']] := by decide
      have hst : sortText ['b'] = ['b', '\n'] := by
        unfold sortText
        rw [hsp, List.mergeSort_singleton]
        rfl
      rw [hst]
      decide)

/-- C8: a successful `sort_lines` run performs, in order, exactly the
buffer mutations start_operation_group, delete of the resolved range,
cursor move to the range's start, insert of the rebuilt text, and
end_operation_group — so the delete+insert pair sits inside one
operation-group bracket — and leaves the application in normal mode. -/
theorem sort_lines_mutation_order
    (app : Application) (b : Buffer) (anchor : Nat)
    (hb : app.buffer = some b) (hm : app.mode = .selectLine anchor)
    (ha : anchor < b.lineCount) (hc : b.cursor.line < b.lineCount) :
    ∃ r t b',
      r = inclusive_range anchor b.cursor.line b ∧
      b.read r = some t ∧
      sort_lines app = .ok { app with mode := .normal, buffer := some b' } ∧
      b'.events = b.events ++ [.startGroup, .deleteEvent r, .moveEvent r.start,
        .insertEvent (sortText t), .endGroup] := by
  obtain ⟨r, iLo, iHi, t, hr, hiLo, hiHi, ht, hstart, hle, hlen2, hread, hrun⟩ :=
    sortLines_run app b anchor hb hm ha hc
  exact ⟨r, t, _, hr, hread, hrun, rfl⟩

/-- Witness for C8 at a concrete state: buffer "b\na" entirely selected
in SelectLine mode. -/
theorem sort_lines_mutation_order_witness :
    ∃ r t b',
      r = inclusive_range 0 1 { data := ['b', '\n', 'a'], cursor := ⟨1, 0⟩, events := [] } ∧
      Buffer.read { data := ['b', '\n', 'a'], cursor := ⟨1, 0⟩, events := [] } r = some t ∧
      sort_lines
          { buffer := some { data := ['b', '\n', 'a'], cursor := ⟨1, 0⟩, events := [] },
            mode := .selectLine 0,
            clipboard := { content := .none, systemSyncFails := false } } =
        .ok { buffer := some b', mode := .normal,
              clipboard := { content := .none, systemSyncFails := false } } ∧
      b'.events = [] ++ [.startGroup, .deleteEvent r, .moveEvent r.start,
        .insertEvent (sortText t), .endGroup] :=
  sort_lines_mutation_order
    { buffer := some { data := ['b', '\n', 'a'], cursor := ⟨1, 0⟩, events := [] },
      mode := .selectLine 0,
      clipboard := { content := .none, systemSyncFails := false } }
    { data := ['b', '\n', 'a'], cursor := ⟨1, 0⟩, events := [] } 0
    rfl rfl (by decide) (by decide)

end Amp
